import Mathlib

/-!
# NovelUpdates scraper: a shallow embedding of `novelupdates.go`

The development models the two extractors `parseSearch` and `parseSeries`, the
slug helper `extractIDFromURL` and the indentation logic of the two `ToJSON`
methods, and states the documented properties of the package against them.

Modelling conventions.

* A Go `string` holding UTF-8 text is a `Str`, the list of runes a
  `for range` loop yields.  Every library routine used by the package
  (`strings.TrimSpace`, `strings.ToLower`, the `regexp` classes, ...) works
  rune by rune, so this view is exact for them.  The only byte-indexed
  operation of the package, the slice expression `s[1:]`, is modelled on the
  UTF-8 encoding (see `sliceFrom1`).
* A Go run-time panic and a returned `error` are the two constructors of
  `Failure`; a function of the package is a function into `Except Failure`.
* The parsed HTML document is an immutable tree `Node` carrying the fields of
  `html.Node` the package reads.  `RemoveChild` rebuilds the node it is called
  on, and the body of a result card is rebuilt around its trimmed
  `span.testhide` before the later queries.  Every card is read from the
  document as parsed: a removal made for one card is not replayed on another
  card or on the body, which is exact unless cards are nested or a
  `search_ratings` node lies inside a body (`cardLayout` excludes both).
* XPath expressions are evaluated as `htmlquery` does: `//t` and `.//t` select
  the proper descendants of the context node in document order, `/t` its
  children, and a query on a nil node dereferences it.
-/

namespace NovelUpdates

/-! ## Strings -/

/-- A Go string seen as its sequence of runes. -/
abbrev Str := List Char

/-- Go `strings.HasPrefix`. -/
def hasPrefix (s pre : Str) : Bool :=
  pre.isPrefixOf s

/-- Go `strings.HasSuffix`. -/
def hasSuffix (s suf : Str) : Bool :=
  suf.isSuffixOf s

/-- Go `strings.TrimPrefix`: `s` without the leading `pre`, or `s` itself. -/
def trimPrefix (s pre : Str) : Str :=
  if hasPrefix s pre then s.drop pre.length else s

/-- Go `strings.TrimSuffix`: `s` without the trailing `suf`, or `s` itself. -/
def trimSuffix (s suf : Str) : Str :=
  if hasSuffix s suf then s.take (s.length - suf.length) else s

/-- Go `strings.TrimRight`: every trailing rune contained in `cutset` is removed. -/
def trimRight (s cutset : Str) : Str :=
  s.rdropWhile (fun c => decide (c ∈ cutset))

/-- Go `unicode.IsSpace`: the Latin-1 cases and the `White_Space` table. -/
def unicodeIsSpace (r : Char) : Bool :=
  if r.toNat ≤ 0xFF then
    r = '\t' || r = '\n' || r.toNat = 0x0B || r.toNat = 0x0C || r = '\r' || r = ' '
      || r.toNat = 0x85 || r.toNat = 0xA0
  else
    r.toNat = 0x1680 || (0x2000 ≤ r.toNat && r.toNat ≤ 0x200A) || r.toNat = 0x2028
      || r.toNat = 0x2029 || r.toNat = 0x202F || r.toNat = 0x205F || r.toNat = 0x3000

/-- Go `strings.TrimSpace`: leading, then trailing, `unicode.IsSpace` runes are removed. -/
def trimSpace (s : Str) : Str :=
  (s.dropWhile unicodeIsSpace).rdropWhile unicodeIsSpace

/-- Go `strings.ReplaceAll(s, old, new)` for a one-rune `old`. -/
def replaceAll (s : Str) (old : Char) (new : Str) : Str :=
  s.flatMap (fun c => if c = old then new else [c])

/-- Go `unicode.ToLower`: the ASCII branch is the code of the standard library;
the case table consulted for every other rune is the argument `caseTable`. -/
def unicodeToLower (caseTable : Char → Char) (r : Char) : Char :=
  if r.toNat ≤ 0x7F then
    (if 'A' ≤ r ∧ r ≤ 'Z' then Char.ofNat (r.toNat + 32) else r)
  else caseTable r

/-- Go `strings.ToLower`, which maps `unicode.ToLower` over the runes. -/
def toLower (caseTable : Char → Char) (s : Str) : Str :=
  s.map (unicodeToLower caseTable)

/-- Go `strings.Repeat(" ", n)`; a negative count makes `strings.Repeat` panic,
which the callers exclude, and is rendered here as the empty string. -/
def repeatSpace (n : Int) : Str :=
  List.replicate n.toNat ' '

/-- Go `fmt.Sprint` of an `int`. -/
def sprintInt (i : Int) : Str :=
  (toString i).toList

/-! ## Regular expressions

The package uses five patterns.  Four of them are a single character class or
`\n$`; they are modelled by their class predicate and the scanning loop of
`ReplaceAllString`.  The fifth, `/series/([a-z0-9-]+)/$`, is modelled by a
backtracking matcher specialised to it. -/

/-- The class `\s` of Go regular expressions: `[\t\n\f\r ]`. -/
def reSpace (c : Char) : Bool :=
  c = '\t' || c = '\n' || c.toNat = 0x0C || c = '\r' || c = ' '

/-- The class `\w` of Go regular expressions: `[0-9A-Za-z_]`. -/
def reWord (c : Char) : Bool :=
  decide ('0' ≤ c ∧ c ≤ '9') || decide ('A' ≤ c ∧ c ≤ 'Z') || decide ('a' ≤ c ∧ c ≤ 'z')
    || c = '_'

/-- The class `[\s()]`. -/
def reSpaceOrParen (c : Char) : Bool :=
  reSpace c || c = '(' || c = ')'

/-- The class `[()]`. -/
def reParen (c : Char) : Bool :=
  c = '(' || c = ')'

/-- The class `[^\w\s]`. -/
def reNotWordNorSpace (c : Char) : Bool :=
  !(reWord c || reSpace c)

/-- The class `[a-z0-9-]`. -/
def reSlugChar (c : Char) : Bool :=
  decide ('a' ≤ c ∧ c ≤ 'z') || decide ('0' ≤ c ∧ c ≤ '9') || c = '-'

/-- Go `ReplaceAllString` for a pattern that is one character class: the text
is scanned from the left and every rune of the class is replaced by `repl`. -/
def reReplaceAllClass (cls : Char → Bool) (src repl : Str) : Str :=
  src.flatMap (fun c => if cls c then repl else [c])

/-- Go `MatchString` for the pattern `\n$`. -/
def reMatchFinalNewline (s : Str) : Bool :=
  s.getLast? = some '\n'

/-- Go `ReplaceAllString(s, "")` for the pattern `\n$`. -/
def reDropFinalNewline (s : Str) : Str :=
  if reMatchFinalNewline s then s.dropLast else s

/-- The greedy `+` of `/series/([a-z0-9-]+)/$`, after `/series/` was read: the
group first holds `k` runes of the class and the rest of the pattern, `/$`, is
tried; on failure the group gives one rune back. -/
def seriesBacktrack (rest : Str) : Nat → Option Str
  | 0 => none
  | k + 1 =>
    if rest.drop (k + 1) = ['/'] then some (rest.take (k + 1))
    else seriesBacktrack rest k

/-- One anchored attempt of `/series/([a-z0-9-]+)/$` at the start of `s`;
the result is the text of the capture group. -/
def seriesMatchHere (s : Str) : Option Str :=
  if hasPrefix s "/series/".toList then
    seriesBacktrack (s.drop 8) ((s.drop 8).takeWhile reSlugChar).length
  else none

/-- Go `FindStringSubmatch` for `/series/([a-z0-9-]+)/$`: the leftmost start
offset at which an attempt succeeds wins; the result is `nil` (the empty list)
or the matched text followed by the capture. -/
def seriesFindStringSubmatch : Str → List Str
  | [] => []
  | c :: cs =>
    match seriesMatchHere (c :: cs) with
    | some cap => ["/series/".toList ++ cap ++ ['/'], cap]
    | none => seriesFindStringSubmatch cs

/-- Function `extractIDFromURL` of the package. -/
def extractIDFromURL (url : Str) : Str :=
  let m := seriesFindStringSubmatch url
  if m.length > 1 then m.getD 1 [] else []

/-! ## Failures -/

/-- The run-time panics the package can raise. -/
inductive Panic where
  | nilDereference
  | indexOutOfRange (index length : Nat)
  | sliceBoundsOutOfRange (low length : Nat)
  | removeChildOfNonChild
  deriving DecidableEq, Repr

/-- A call of the package either returns a value, returns an `error`, or panics. -/
inductive Failure where
  | error (msg : Str)
  | panic (p : Panic)
  deriving DecidableEq, Repr

/-- The outcome of a call. -/
abbrev Result (α : Type) := Except Failure α

/-- The Go index expression `xs[i]`. -/
def index {α : Type} (xs : List α) (i : Nat) : Result α :=
  match xs.get? i with
  | some x => .ok x
  | none => .error (.panic (.indexOutOfRange i xs.length))

/-- The Go slice expression `s[1:]`.  It cuts one byte: an ASCII first rune
disappears, while a first rune of `n > 1` bytes leaves `n - 1` continuation
bytes, each of which reads back as U+FFFD.  The empty string panics. -/
def sliceFrom1 : Str → Result Str
  | [] => .error (.panic (.sliceBoundsOutOfRange 1 0))
  | c :: rest =>
    .ok (List.replicate (c.utf8Size - 1) (Char.ofNat 0xFFFD) ++ rest)

/-! ## The parsed document -/

/-- The node kinds of `html.Node`. -/
inductive NodeType where
  | ErrorNode | TextNode | DocumentNode | ElementNode | CommentNode | DoctypeNode | RawNode
  deriving DecidableEq, Repr

/-- An `html.Attribute` (the namespace is not read by the package). -/
structure Attribute where
  key : Str
  val : Str
  deriving DecidableEq, Repr

/-- An `html.Node` with the chain `FirstChild`, `NextSibling`, ... as a list. -/
inductive Node where
  | mk (type : NodeType) (data : Str) (attr : List Attribute) (children : List Node)

/-- Field `Type`. -/
def Node.type : Node → NodeType
  | .mk t _ _ _ => t

/-- Field `Data`: the tag of an element, the content of a text or comment node. -/
def Node.data : Node → Str
  | .mk _ d _ _ => d

/-- Field `Attr`. -/
def Node.attr : Node → List Attribute
  | .mk _ _ a _ => a

/-- The children, first to last. -/
def Node.children : Node → List Node
  | .mk _ _ _ cs => cs

mutual
/-- Function `htmlquery.InnerText` on a non-nil node: the text nodes below it, comments skipped. -/
def Node.innerText : Node → Str
  | .mk t d _ cs =>
    match t with
    | .TextNode => d
    | .CommentNode => []
    | _ => innerTextList cs
/-- The loop of `htmlquery.InnerText` over the children. -/
def innerTextList : List Node → Str
  | [] => []
  | c :: cs => c.innerText ++ innerTextList cs
end

mutual
/-- The proper descendants of a node in document order. -/
def Node.descendants : Node → List Node
  | .mk _ _ _ cs => descendantsList cs
/-- The nodes of a forest in document order. -/
def descendantsList : List Node → List Node
  | [] => []
  | c :: cs => c :: (c.descendants ++ descendantsList cs)
end

/-- Function `htmlquery.InnerText`; a nil node is dereferenced. -/
def innerText : Option Node → Result Str
  | none => .error (.panic .nilDereference)
  | some n => .ok n.innerText

/-- Function `htmlquery.SelectAttr`: the value of the first attribute called `name`,
the empty string when there is none or the node is nil. -/
def selectAttr (n : Option Node) (name : Str) : Str :=
  match n with
  | none => []
  | some n =>
    match n.attr.find? (fun a => a.key = name) with
    | some a => a.val
    | none => []

/-- Function `htmlquery.Find(top, expr)`, where `expr` is the node list the XPath
expression selects from a context node; a nil `top` is dereferenced. -/
def find (top : Option Node) (expr : Node → List Node) : Result (List Node) :=
  match top with
  | none => .error (.panic .nilDereference)
  | some n => .ok (expr n)

/-- Function `htmlquery.FindOne(top, expr)`: the first node of `expr`, or nil. -/
def findOne (top : Option Node) (expr : Node → List Node) : Result (Option Node) :=
  match top with
  | none => .error (.panic .nilDereference)
  | some n => .ok (expr n).head?

/-! ### XPath steps -/

/-- Node test `tag`: an element called `tag`. -/
def isElement (tag : Str) (n : Node) : Bool :=
  n.type = NodeType.ElementNode && n.data = tag

/-- Node test `text()`. -/
def isText (n : Node) : Bool :=
  n.type = NodeType.TextNode

/-- Predicate `[@key='v']`: some attribute `key` has the value `v`. -/
def attrIs (key v : Str) (n : Node) : Bool :=
  n.attr.any (fun a => a.key = key && a.val = v)

/-- XPath `contains(s, sub)` on strings. -/
def containsSub (s sub : Str) : Bool :=
  s.tails.any (fun t => sub.isPrefixOf t)

/-- Predicate `[contains(@key, sub)]`: the first attribute `key` exists and contains `sub`. -/
def attrContains (key sub : Str) (n : Node) : Bool :=
  match n.attr.find? (fun a => a.key = key) with
  | some a => containsSub a.val sub
  | none => false

/-- Predicate `[contains(text(), sub)]`: the first text child exists and contains `sub`. -/
def textContains (sub : Str) (n : Node) : Bool :=
  match n.children.find? isText with
  | some t => containsSub t.data sub
  | none => false

/-- Step `//test` (also `.//test`): the descendants passing `test`, in document order. -/
def descendantStep (test : Node → Bool) (n : Node) : List Node :=
  n.descendants.filter test

/-- Step `/test`: the children passing `test`. -/
def childStep (test : Node → Bool) (n : Node) : List Node :=
  n.children.filter test

/-- An element `div` with `class` equal to `cls`. -/
def divClass (cls : Str) (n : Node) : Bool :=
  isElement "div".toList n && attrIs "class".toList cls n

/-- An element `div` with `id` equal to `ident`. -/
def divId (ident : Str) (n : Node) : Bool :=
  isElement "div".toList n && attrIs "id".toList ident n

/-- An element `span` with `class` equal to `cls`. -/
def spanClass (cls : Str) (n : Node) : Bool :=
  isElement "span".toList n && attrIs "class".toList cls n

/-! ### Removing children

`n.RemoveChild(c)` panics unless `c` is a child of `n`.  The package always
calls it with nodes `c` found below `n` by a query, so the two functions below
take the query's node test. -/

/-- The statement `if c := FindOne(n, ".//test"); c != nil then n.RemoveChild(c)`
on the children of `n`: the first descendant passing `test` is removed when it
is a child, and the call panics when it lies deeper. -/
def removeFirstIn (test : Node → Bool) : List Node → Result (List Node)
  | [] => .ok []
  | c :: cs =>
    if test c then .ok cs
    else if c.descendants.any test then .error (.panic .removeChildOfNonChild)
    else
      match removeFirstIn test cs with
      | .ok cs1 => .ok (c :: cs1)
      | .error e => .error e

/-- See `removeFirstIn`. -/
def removeFirstMatch (test : Node → Bool) : Node → Result Node
  | .mk t d a cs =>
    match removeFirstIn test cs with
    | .ok cs1 => .ok (.mk t d a cs1)
    | .error e => .error e

/-- The loop `for _, c := range Find(n, ".//test") then n.RemoveChild(c)`: every
descendant passing `test` must be a child of `n`, and all of them are removed. -/
def removeAllMatches (test : Node → Bool) : Node → Result Node
  | .mk t d a cs =>
    if cs.any (fun c => c.descendants.any test) then .error (.panic .removeChildOfNonChild)
    else .ok (.mk t d a (cs.filter (fun c => !test c)))

mutual
/-- The node with its first descendant passing `test` replaced by `new`, if any. -/
def Node.replaceFirst (test : Node → Bool) (new : Node) : Node → Option Node
  | .mk t d a cs =>
    match replaceFirstList test new cs with
    | some cs1 => some (.mk t d a cs1)
    | none => none
/-- See `Node.replaceFirst`. -/
def replaceFirstList (test : Node → Bool) (new : Node) : List Node → Option (List Node)
  | [] => none
  | c :: cs =>
    if test c then some (new :: cs)
    else
      match Node.replaceFirst test new c with
      | some c1 => some (c1 :: cs)
      | none =>
        match replaceFirstList test new cs with
        | some cs1 => some (c :: cs1)
        | none => none
end

/-! ## Records -/

/-- The map with keys `name` and `url`. -/
structure NameURL where
  name : Str
  url : Str
  deriving DecidableEq, Repr

/-- The map with keys `name`, `url` and `description`. -/
structure Tag where
  name : Str
  url : Str
  description : Str
  deriving DecidableEq, Repr

/-- The map with keys `name` and `rating`. -/
structure Rating where
  name : Str
  rating : Str
  deriving DecidableEq, Repr

/-- The struct `SearchResult`. -/
structure SearchResult where
  Title : Str
  ID : Str
  URL : Str
  Image : Str
  SearchRating : Str
  Description : Str
  Releases : Str
  UpdateFreq : Str
  NuReaders : Str
  NuReviews : Str
  LastUpdated : Str
  Genres : List NameURL
  deriving DecidableEq, Repr

/-- The struct `SeriesResult`; a nil map is `none`, the field `Type` is `Typ`. -/
structure SeriesResult where
  Title : Str
  Image : Str
  Typ : NameURL
  Genre : List Tag
  Rating : List Rating
  Language : NameURL
  Authors : List NameURL
  Artists : List NameURL
  Year : Str
  Status : Str
  Licensed : Str
  CompletelyTranslated : Str
  OriginalPublisher : Option NameURL
  EnglishPublisher : Option NameURL
  ReleaseFreq : Str
  Description : Str
  AssociatedNames : List Str
  Groups : List NameURL
  Tags : List Tag
  deriving DecidableEq, Repr

/-! ## `ToJSON` -/

/-- Method `(*SearchResult).ToJSON`; `marshalIndent` is `json.MarshalIndent`,
called with the value, the prefix and the indent string. -/
def SearchResult.ToJSON {β : Type} (marshalIndent : SearchResult → Str → Str → Except Str β)
    (searchResults : SearchResult) (indent : List Int) : Except Str β :=
  let customIndent : Int :=
    match indent with
    | [] => 2
    | requestedIndent :: _ =>
      if requestedIndent > 0 ∧ requestedIndent ≤ 8 then requestedIndent else 2
  marshalIndent searchResults [] (repeatSpace customIndent)

/-- Method `(*SeriesResult).ToJSON`; `marshalIndent` is `json.MarshalIndent`,
called with the value, the prefix and the indent string. -/
def SeriesResult.ToJSON {β : Type} (marshalIndent : SeriesResult → Str → Str → Except Str β)
    (seriesResults : SeriesResult) (indent : List Int) : Except Str β :=
  let customIndent : Int :=
    match indent with
    | [] => 2
    | requestedIndent :: _ =>
      if requestedIndent > 0 ∧ requestedIndent ≤ 8 then requestedIndent else 2
  marshalIndent seriesResults [] (repeatSpace customIndent)

/-! ## `parseSearch` -/

/-- The value of `image` after the placeholder test. -/
def imageOf (src : Str) : Str :=
  if hasSuffix src "noimagemid.jpg".toList then [] else src

/-- The value of `searchRating` for the inner text of the `search_ratings` node. -/
def searchRatingOf (ratingsText : Str) : Str :=
  reReplaceAllClass reSpaceOrParen ratingsText []

/-- The value of the field `Description` for the inner text of the body text
node and the inner text of the trimmed `span.testhide`. -/
def descriptionOf (bodyText moreText : Str) : Str :=
  trimRight (trimSpace bodyText ++ "\n".toList ++ trimSpace moreText) "\n".toList

/-- XPath `.//div[@class='search_title']/a`. -/
def searchTitleAnchor (n : Node) : List Node :=
  (descendantStep (divClass "search_title".toList) n).flatMap (childStep (isElement "a".toList))

/-- XPath `.//div[@class='search_stats']/span[@class='ss_desk']`. -/
def searchStats (n : Node) : List Node :=
  (descendantStep (divClass "search_stats".toList) n).flatMap
    (childStep (spanClass "ss_desk".toList))

/-- XPath `.//div[@class='search_genre']/a`. -/
def searchGenres (n : Node) : List Node :=
  (descendantStep (divClass "search_genre".toList) n).flatMap (childStep (isElement "a".toList))

/-- The node test of `.//p[@style='margin-top:-5px;']`. -/
def isSpacerParagraph (n : Node) : Bool :=
  isElement "p".toList n && attrIs "style".toList "margin-top:-5px;".toList n

/-- The removal of `ratingSpan`, the first `span` below `imageBodyRatings`;
the query on a nil `imageBodyRatings` panics. -/
def removeRatingSpan : Option Node → Result Node
  | none => .error (.panic .nilDereference)
  | some r => removeFirstMatch (isElement "span".toList) r

/-- The three removals performed on `moreDescription`; the first query on a
nil `moreDescription` panics. -/
def trimMoreDescription : Option Node → Result Node
  | none => .error (.panic .nilDereference)
  | some moreDescription =>
    match removeFirstMatch (spanClass "morelink list".toList) moreDescription with
    | .error e => .error e
    | .ok m1 =>
      match removeAllMatches isSpacerParagraph m1 with
      | .error e => .error e
      | .ok m2 => removeFirstMatch (spanClass "moreurl list".toList) m2

/-- The node `body` once `moreDescription`, its first `span.testhide`, was trimmed. -/
def bodyAfterTrim (body : Option Node) (trimmed : Node) : Option Node :=
  body.map (fun b => (Node.replaceFirst (spanClass "testhide".toList) trimmed b).getD b)

/-- One iteration of the loop of `parseSearch`: the record of the container `result`. -/
def searchResultOf (result : Node) : Result SearchResult := do
  let body ← findOne (some result) (descendantStep (divClass "search_body_nu".toList))
  let imageBody ← findOne (some result) (descendantStep (divClass "search_img_nu".toList))
  let title := trimSpace (← innerText (← findOne body searchTitleAnchor))
  let url := selectAttr (← findOne body searchTitleAnchor) "href".toList
  let image := imageOf
    (selectAttr (← findOne imageBody (descendantStep (isElement "img".toList))) "src".toList)
  let imageBodyRatings ← findOne imageBody (descendantStep (divClass "search_ratings".toList))
  let ratings ← removeRatingSpan imageBodyRatings
  let searchRating := searchRatingOf ratings.innerText
  let ogText ← innerText (← findOne body (childStep isText))
  let moreDescription ← findOne body (descendantStep (spanClass "testhide".toList))
  let trimmed ← trimMoreDescription moreDescription
  let stats ← find (bodyAfterTrim body trimmed) searchStats
  let releases := trimSpace (← index stats 0).innerText
  let updateFreq := trimSpace (← index stats 1).innerText
  let nuReaders := trimSpace (← index stats 2).innerText
  let nuReviews := trimSpace (← index stats 3).innerText
  let lastUpdated := trimSpace (← index stats 4).innerText
  let genreNodes ← find (bodyAfterTrim body trimmed) searchGenres
  let genres := genreNodes.map
    (fun genre => NameURL.mk (trimSpace genre.innerText) (selectAttr (some genre) "href".toList))
  return {
    Title := title
    ID := extractIDFromURL url
    URL := url
    Image := image
    SearchRating := searchRating
    Description := descriptionOf ogText trimmed.innerText
    Releases := releases
    UpdateFreq := updateFreq
    NuReaders := nuReaders
    NuReviews := nuReviews
    LastUpdated := lastUpdated
    Genres := genres }

/-- The `for` loop of `parseSearch` over the containers still to visit. -/
def parseSearchLoop : List Node → List SearchResult → Result (List SearchResult)
  | [], results => .ok results
  | result :: rest, results =>
    match searchResultOf result with
    | .ok resultStruct => parseSearchLoop rest (results ++ [resultStruct])
    | .error e => .error e

/-- XPath `//div[@class='search_main_box_nu']`. -/
def searchContainers (doc : Node) : List Node :=
  descendantStep (divClass "search_main_box_nu".toList) doc

/-- Function `parseSearch`; the argument is the outcome of `htmlquery.Parse(req.Body)`. -/
def parseSearch (parsed : Except Str Node) : Result (List SearchResult) :=
  match parsed with
  | .error err => .error (.error err)
  | .ok doc => parseSearchLoop (searchContainers doc) []

/-! ## `parseSeries` -/

/-- The cleaning `strings.TrimPrefix(text, " ")[1:]` applied to the inner text
of `div#editstatus`, `div#showlicensed` and `div#showtranslated`. -/
def stripLabel (text : Str) : Result Str :=
  sliceFrom1 (trimPrefix text " ".toList)

/-- The group url derived from the group name, as in the loop over `li`. -/
def groupURL (caseTable : Char → Char) (name : Str) : Str :=
  let temp := replaceAll (toLower caseTable (replaceAll name ' ' "-".toList)) '-' []
  "https://www.novelupdates.com/group/".toList ++ reReplaceAllClass reNotWordNorSpace temp []

/-- The expression `n.FirstChild.Data`. -/
def firstChildData : Option Node → Result Str
  | none => .error (.panic .nilDereference)
  | some n =>
    match n.children with
    | [] => .error (.panic .nilDereference)
    | c :: _ => .ok c.data

/-- XPath `//div[@class='C']/div[contains(@class, 'wpb_text_column')]/div[@class='wpb_wrapper']`. -/
def columnWrapper (cls : Str) (n : Node) : List Node :=
  ((descendantStep (divClass cls) n).flatMap
    (childStep (fun d => isElement "div".toList d
      && attrContains "class".toList "wpb_text_column".toList d))).flatMap
    (childStep (divClass "wpb_wrapper".toList))

/-- XPath `//div[@id='I']//a`. -/
def anchorsIn (ident : Str) (n : Node) : List Node :=
  (descendantStep (divId ident) n).flatMap (descendantStep (isElement "a".toList))

/-- XPath `//div[@class='seriesimg']//img`. -/
def seriesImg (n : Node) : List Node :=
  (descendantStep (divClass "seriesimg".toList) n).flatMap
    (descendantStep (isElement "img".toList))

/-- XPath `//h5[@class='seriesother']/span[@class='uvotes']`. -/
def overallVotes (n : Node) : List Node :=
  (descendantStep (fun h => isElement "h5".toList h
    && attrIs "class".toList "seriesother".toList h) n).flatMap
    (childStep (spanClass "uvotes".toList))

/-- XPath `//table[@id='myrates']`. -/
def ratingsTable (n : Node) : List Node :=
  descendantStep (fun t => isElement "table".toList t
    && attrIs "id".toList "myrates".toList t) n

/-- XPath `//table[@id='myrates']/tbody/tr`. -/
def ratingRows (n : Node) : List Node :=
  ((ratingsTable n).flatMap (childStep (isElement "tbody".toList))).flatMap
    (childStep (isElement "tr".toList))

/-- The node test `h5[@class='seriesother'][contains(text(),'Release Frequency')]`. -/
def isReleaseFrequencyHeading (n : Node) : Bool :=
  isElement "h5".toList n && attrIs "class".toList "seriesother".toList n
    && textContains "Release Frequency".toList n

mutual
/-- XPath `//T/following-sibling::text()[1]` for a node test `T`: for every
descendant passing `T`, its nearest following sibling that is a text node. -/
def Node.followingText (test : Node → Bool) : Node → List Node
  | .mk _ _ _ cs => followingTextList test cs
/-- See `Node.followingText`. -/
def followingTextList (test : Node → Bool) : List Node → List Node
  | [] => []
  | c :: cs =>
    (if test c then (cs.find? isText).toList else [])
      ++ (Node.followingText test c ++ followingTextList test cs)
end

/-- The test `htmlquery.OutputHTML(child, true) == "<br/>"`. -/
def rendersAsBr (n : Node) : Bool :=
  (n.type = NodeType.ElementNode && n.data = "br".toList && n.attr.isEmpty
      && n.children.isEmpty)
    || (n.type = NodeType.RawNode && n.data = "<br/>".toList)

/-- The loop over the rows of the ratings table; `tempR` is the label of the next row. -/
def ratingLoop : List Node → Int → List Rating → Result (List Rating)
  | [], _, rating => .ok rating
  | tr :: rest, tempR, rating =>
    match index (childStep (isElement "td".toList) tr) 1 with
    | .ok td => ratingLoop rest (tempR - 1) (rating ++ [Rating.mk (sprintInt tempR) td.innerText])
    | .error e => .error e

/-- The value of `rating` in `parseSeries`. -/
def ratingOf (doc : Node) : Result (List Rating) := do
  let overallRatingNode ← findOne (some doc) overallVotes
  let overallRating := reReplaceAllClass reParen (← firstChildData overallRatingNode) []
  ratingLoop (ratingRows doc) 5 [Rating.mk "Overall".toList overallRating]

/-- The loop over the children of `div#editassociated`; the first step reads
`divNode.FirstChild`. -/
def associatedNamesOf : Option Node → Result (List Str)
  | none => .error (.panic .nilDereference)
  | some d => .ok ((d.children.filter (fun child => !rendersAsBr child)).map Node.innerText)

/-- The publisher map: nil when the anchor is missing. -/
def publisherOf (node : Option Node) : Option NameURL :=
  node.map (fun a => NameURL.mk a.innerText (selectAttr (some a) "href".toList))

/-- The value of `groups` in `parseSeries`. -/
def groupsOf (caseTable : Char → Char) (doc : Node) : List NameURL :=
  match (descendantStep (fun o => isElement "ol".toList o
      && attrIs "class".toList "sp_grouptable".toList o) doc).head? with
  | none => []
  | some groupsNode =>
    (descendantStep (isElement "li".toList) groupsNode).map (fun g =>
      let name := selectAttr
        (descendantStep (fun sp => isElement "span".toList sp
          && attrIs "style".toList "padding-left:20px;".toList sp) g).head? "title".toList
      NameURL.mk name (groupURL caseTable name))

/-- The body of `parseSeries` after a successful `htmlquery.Parse`. -/
def seriesResultOf (caseTable : Char → Char) (doc : Node) : Result SeriesResult := do
  let page ← findOne (some doc) (descendantStep (divClass "w-blog-content".toList))
  let body ← findOne page (descendantStep (divClass "g-cols wpb_row offset_default".toList))
  let ot ← findOne body (columnWrapper "one-third".toList)
  let tt ← findOne body (columnWrapper "two-thirds".toList)
  let title ← innerText (← findOne page (descendantStep (divClass "seriestitlenu".toList)))
  let image := selectAttr (← findOne ot seriesImg) "src".toList
  let typeRaw ← findOne ot (descendantStep (divId "showtype".toList))
  let typeAnchorText ← innerText (← findOne typeRaw (descendantStep (isElement "a".toList)))
  let typeSpanText ← innerText (← findOne typeRaw (descendantStep (isElement "span".toList)))
  let typeText := typeAnchorText ++ " ".toList ++ typeSpanText
  let typeURL := selectAttr (← findOne typeRaw (descendantStep (isElement "a".toList)))
    "href".toList
  let genre := (← find ot (anchorsIn "seriesgenre".toList)).map (fun g =>
    Tag.mk g.innerText (selectAttr (some g) "href".toList) (selectAttr (some g) "title".toList))
  let tags := (← find ot (anchorsIn "showtags".toList)).map (fun t =>
    Tag.mk t.innerText (selectAttr (some t) "href".toList) (selectAttr (some t) "title".toList))
  let rating ← ratingOf doc
  let languageNode ← findOne ot (anchorsIn "showlang".toList)
  let languageName ← innerText languageNode
  let language := NameURL.mk languageName (selectAttr languageNode "href".toList)
  let authors := (← find ot (anchorsIn "showauthors".toList)).map (fun a =>
    NameURL.mk a.innerText (selectAttr (some a) "href".toList))
  let artists := (← find ot (anchorsIn "showartists".toList)).map (fun a =>
    NameURL.mk a.innerText (selectAttr (some a) "href".toList))
  let year := trimSpace (← innerText (← findOne ot (descendantStep (divId "edityear".toList))))
  let statusRaw ← findOne ot (descendantStep (divId "editstatus".toList))
  let status0 ← stripLabel (← innerText statusRaw)
  let statusFirst ← firstChildData statusRaw
  let status := if reMatchFinalNewline statusFirst then reDropFinalNewline status0 else status0
  let licensed ← stripLabel
    (← innerText (← findOne ot (descendantStep (divId "showlicensed".toList))))
  let completelyTranslated ← stripLabel
    (← innerText (← findOne ot (descendantStep (divId "showtranslated".toList))))
  let originalPublisher := publisherOf (← findOne ot (anchorsIn "showopublisher".toList))
  let englishPublisher := publisherOf (← findOne ot (anchorsIn "showepublisher".toList))
  let releaseFreqNodes ← find ot (Node.followingText isReleaseFrequencyHeading)
  let releaseFreq := releaseFreqNodes.foldl (fun acc node => acc ++ trimSpace node.innerText) []
  let descriptionRaw ← findOne tt (descendantStep (divId "editdescription".toList))
  let description := trimSuffix (← innerText descriptionRaw) "\n".toList
  let divNode ← findOne (some doc) (descendantStep (divId "editassociated".toList))
  let associatedNames ← associatedNamesOf divNode
  let groups := groupsOf caseTable doc
  return {
    Title := title
    Image := image
    Typ := NameURL.mk typeText typeURL
    Genre := genre
    Tags := tags
    Rating := rating
    Language := language
    Authors := authors
    Artists := artists
    Year := year
    Status := status
    Licensed := licensed
    CompletelyTranslated := completelyTranslated
    OriginalPublisher := originalPublisher
    EnglishPublisher := englishPublisher
    ReleaseFreq := releaseFreq
    Description := description
    AssociatedNames := associatedNames
    Groups := groups }

/-- Function `parseSeries`; the argument is the outcome of `htmlquery.Parse(req.Body)`,
`caseTable` the Unicode table behind `strings.ToLower`. -/
def parseSeries (caseTable : Char → Char) (parsed : Except Str Node) : Result SeriesResult :=
  match parsed with
  | .error err => .error (.error err)
  | .ok doc => seriesResultOf caseTable doc

/-! ## Sample documents -/

/-- An element node. -/
def el (tag : String) (attrs : List (String × String)) (children : List Node) : Node :=
  .mk .ElementNode tag.toList (attrs.map (fun kv => Attribute.mk kv.1.toList kv.2.toList)) children

/-- A text node. -/
def tx (s : String) : Node :=
  .mk .TextNode s.toList [] []

/-- A document node holding `html > body > content`. -/
def htmlDocument (content : List Node) : Node :=
  .mk .DocumentNode [] [] [el "html" [] [el "head" [] [], el "body" [] content]]

/-- A result card of a search page with the given statistics spans. -/
def searchCard (slug title : String) (stats : List String) : Node :=
  el "div" [("class", "search_main_box_nu")] [
    el "div" [("class", "search_img_nu")] [
      el "img" [("src", "https://cdn.novelupdates.com/imgmid/noimagemid.jpg")] [],
      el "div" [("class", "search_ratings")] [el "span" [("class", "fa fa-star")] [], tx " (4.5)\n"]],
    el "div" [("class", "search_body_nu")] [
      el "div" [("class", "search_title")] [
        el "a" [("href", "https://www.novelupdates.com/series/" ++ slug ++ "/")] [tx title]],
      el "div" [("class", "search_stats")]
        (stats.map (fun s => el "span" [("class", "ss_desk")] [tx s])),
      el "div" [("class", "search_genre")] [
        el "a" [("href", "https://www.novelupdates.com/genre/fantasy/")] [tx "Fantasy"]],
      tx " A jobless man is reborn. ",
      el "span" [("class", "testhide")] [
        el "p" [("style", "margin-top:-5px;")] [tx "x"],
        tx "He starts over.\n",
        el "span" [("class", "morelink list")] [tx "... more>>"],
        el "span" [("class", "moreurl list")] [tx "<<less"]]]]

/-- A search page with two well-formed cards. -/
def searchPage : Node :=
  htmlDocument [
    searchCard "mushoku-tensei-ln" "Mushoku Tensei (LN)" ["10 Chapters", "Every 3 Days", "99 Readers", "7 Reviews", "01-01-2024"],
    searchCard "mushoku-tensei-wn" "Mushoku Tensei (WN)" ["286 Chapters", "Every Day", "12 Readers", "3 Reviews", "02-02-2024"]]

/-- A search page whose only card lacks the fifth statistics span. -/
def searchPageBroken : Node :=
  htmlDocument [
    searchCard "mushoku-tensei-ln" "Mushoku Tensei (LN)" ["10 Chapters", "Every 3 Days", "99 Readers", "7 Reviews"]]

/-- A series page; the rows of the ratings table and the content of
`div#showlicensed` are arguments. -/
def seriesPage (rows : List String) (licensed : List Node) : Node :=
  htmlDocument [
    el "div" [("class", "w-blog-content")] [
      el "div" [("class", "seriestitlenu")] [tx "Mushoku Tensei (LN)"],
      el "div" [("class", "g-cols wpb_row offset_default")] [
        el "div" [("class", "one-third")] [
          el "div" [("class", "wpb_text_column ")] [
            el "div" [("class", "wpb_wrapper")] [
              el "div" [("class", "seriesimg")] [el "img" [("src", "https://cdn.novelupdates.com/images/m.jpg")] []],
              el "div" [("id", "showtype")] [
                el "a" [("href", "https://www.novelupdates.com/ntype/light-novel/")] [tx "Light Novel"],
                el "span" [] [tx "JP"]],
              el "div" [("id", "seriesgenre")] [
                el "a" [("href", "https://www.novelupdates.com/genre/fantasy/"), ("title", "magic")] [tx "Fantasy"]],
              el "div" [("id", "showtags")] [],
              el "h5" [("class", "seriesother")] [
                tx "Rating", el "span" [("class", "uvotes")] [tx "(4.5 / 5.0, 99 votes)"]],
              el "table" [("id", "myrates")] [
                el "tbody" [] (rows.map (fun r => el "tr" [] [el "td" [] [tx "*"], el "td" [] [tx r]]))],
              el "div" [("id", "showlang")] [
                el "a" [("href", "https://www.novelupdates.com/language/japanese/")] [tx "Japanese"]],
              el "div" [("id", "showauthors")] [
                el "a" [("href", "https://www.novelupdates.com/nauthor/rifujin/")] [tx "Rifujin"]],
              el "div" [("id", "showartists")] [],
              el "div" [("id", "edityear")] [tx "\n2014\n"],
              el "div" [("id", "editstatus")] [tx "\n26 Volumes\n"],
              el "div" [("id", "showlicensed")] licensed,
              el "div" [("id", "showtranslated")] [tx "\nNo\n"],
              el "div" [("id", "showopublisher")] [
                el "a" [("href", "https://www.novelupdates.com/opublisher/mf/")] [tx "MF Books"]],
              el "div" [("id", "showepublisher")] [tx "N/A"],
              el "h5" [("class", "seriesother")] [tx "Release Frequency"],
              tx "\nEvery 30 Day(s)\n"]]],
        el "div" [("class", "two-thirds")] [
          el "div" [("class", "wpb_text_column ")] [
            el "div" [("class", "wpb_wrapper")] [
              el "div" [("id", "editdescription")] [tx "A jobless man is reborn.\n"],
              el "div" [("id", "editassociated")] [tx "MT", el "br" [] [], tx "Jobless"],
              el "ol" [("class", "sp_grouptable")] [
                el "li" [] [el "span" [("style", "padding-left:20px;"), ("title", "Seven Seas")] []]]]]]]]]

/-- The five rows of a regular ratings table. -/
def fiveRows : List String :=
  ["50%", "20%", "15%", "10%", "5%"]

/-! ## Definitions used by the statements -/

/-- The layout of a result card that `parseSearch` relies on, with a
condition `enough` on the list `stats`: the body and the image region exist;
the body holds a title anchor, a text child and a `span.testhide` whose
trimming succeeds, after which the statistics spans of the body satisfy
`enough`; the image region holds a `search_ratings` node whose `span`
descendants are all children of it.  As on the site, no card lies inside the
card and no `search_ratings` node lies inside the body, so that no removal made
for a card is visible from another card or from the body. -/
def cardLayout (enough : List Node → Bool) (card : Node) : Bool :=
  match (descendantStep (divClass "search_body_nu".toList) card).head?,
      (descendantStep (divClass "search_img_nu".toList) card).head? with
  | some body, some imageBody =>
    (searchTitleAnchor body).head?.isSome
    && (match (descendantStep (divClass "search_ratings".toList) imageBody).head? with
        | some ratings =>
          ratings.children.all (fun c => !(c.descendants.any (isElement "span".toList)))
        | none => false)
    && (childStep isText body).head?.isSome
    && (match trimMoreDescription
          (descendantStep (spanClass "testhide".toList) body).head? with
        | .ok trimmed => enough (searchStats
            ((Node.replaceFirst (spanClass "testhide".toList) trimmed body).getD body))
        | .error _ => false)
    && (searchContainers card).isEmpty
    && !(divClass "search_ratings".toList body)
    && (descendantStep (divClass "search_ratings".toList) body).isEmpty
  | _, _ => false

/-- A result card with all the nodes `parseSearch` requires, among them at
least five statistics spans. -/
def wellFormedCard (card : Node) : Bool :=
  cardLayout (fun stats => decide (5 ≤ stats.length)) card

/-- A result card with all the nodes `parseSearch` requires except that it
holds exactly `k` statistics spans. -/
def cardWithStats (k : Nat) (card : Node) : Bool :=
  cardLayout (fun stats => decide (stats.length = k)) card

/-- A series page whose ratings table has five rows. -/
def seriesPageFiveRows : Node :=
  seriesPage fiveRows [tx "\nYes\n"]

/-- A series page whose ratings table has two rows. -/
def seriesPageTwoRows : Node :=
  seriesPage ["60%", "40%"] [tx "\nYes\n"]

/-- A series page whose `div#showlicensed` is empty. -/
def seriesPageEmptyLicensed : Node :=
  seriesPage fiveRows []

/-- The records `parseSearch` returns for `searchPage`. -/
def searchPageRecords : List SearchResult :=
  match parseSearch (Except.ok searchPage) with
  | .ok rs => rs
  | .error _ => []

/-- A search record with empty fields. -/
def emptySearchResult : SearchResult :=
  { Title := [], ID := [], URL := [], Image := [], SearchRating := [], Description := [],
    Releases := [], UpdateFreq := [], NuReaders := [], NuReviews := [], LastUpdated := [],
    Genres := [] }

/-- The first record `parseSearch` returns for `searchPage`. -/
def firstSearchPageRecord : SearchResult :=
  searchPageRecords.headD emptySearchResult

/-- A series record with empty fields. -/
def emptySeriesResult : SeriesResult :=
  { Title := [], Image := [], Typ := NameURL.mk [] [], Genre := [], Rating := [],
    Language := NameURL.mk [] [], Authors := [], Artists := [], Year := [], Status := [],
    Licensed := [], CompletelyTranslated := [], OriginalPublisher := none,
    EnglishPublisher := none, ReleaseFreq := [], Description := [], AssociatedNames := [],
    Groups := [], Tags := [] }


/-! ## Facts about the string routines and the loops -/

set_option maxRecDepth 100000

theorem hasPrefix_iff (s pre : Str) : hasPrefix s pre = true ↔ ∃ t, s = pre ++ t := by
  unfold hasPrefix
  rw [List.isPrefixOf_iff_prefix]
  constructor
  · rintro ⟨t, rfl⟩
    exact ⟨t, rfl⟩
  · rintro ⟨t, rfl⟩
    exact ⟨t, rfl⟩

theorem hasSuffix_iff (s suf : Str) : hasSuffix s suf = true ↔ ∃ t, s = t ++ suf := by
  unfold hasSuffix
  rw [List.isSuffixOf_iff_suffix]
  constructor
  · rintro ⟨t, rfl⟩
    exact ⟨t, rfl⟩
  · rintro ⟨t, rfl⟩
    exact ⟨t, rfl⟩

theorem reSlugChar_iff (c : Char) :
    reSlugChar c = true ↔ (('a' ≤ c ∧ c ≤ 'z') ∨ ('0' ≤ c ∧ c ≤ '9') ∨ c = '-') := by
  simp [reSlugChar, or_assoc]

theorem reSlugChar_slash : reSlugChar '/' = false := by decide

theorem takeWhile_append_stop {α : Type} (p : α → Bool) (a : List α) (b : α) (c : List α)
    (ha : ∀ x ∈ a, p x = true) (hb : p b = false) : (a ++ b :: c).takeWhile p = a := by
  induction a with
  | nil => simp [List.takeWhile, hb]
  | cons x xs ih =>
    have hx : p x = true := ha x (List.mem_cons_self _ _)
    simp only [List.cons_append, List.takeWhile_cons, hx, if_true]
    rw [ih (fun y hy => ha y (List.mem_cons_of_mem _ hy))]

theorem seriesBacktrack_some (rest : Str) (n : Nat) (m : Str)
    (h : seriesBacktrack rest n = some m) :
    ∃ k, 0 < k ∧ k ≤ n ∧ rest.drop k = ['/'] ∧ m = rest.take k := by
  induction n with
  | zero => simp [seriesBacktrack] at h
  | succ k ih =>
    unfold seriesBacktrack at h
    split at h
    · rename_i hd
      injection h with h
      exact ⟨k + 1, Nat.succ_pos _, le_refl _, hd, h.symm⟩
    · obtain ⟨j, hj0, hjk, hd, hm⟩ := ih h
      exact ⟨j, hj0, Nat.le_succ_of_le hjk, hd, hm⟩

theorem seriesMatchHere_some (s m : Str) (h : seriesMatchHere s = some m) :
    m ≠ [] ∧ (∀ c ∈ m, reSlugChar c = true) ∧ s = "/series/".toList ++ m ++ ['/'] := by
  unfold seriesMatchHere at h
  split at h
  · rename_i hp
    obtain ⟨t, ht⟩ := (hasPrefix_iff _ _).1 hp
    have hdrop : s.drop 8 = t := by
      rw [ht]
      exact List.drop_left' rfl
    rw [hdrop] at h
    obtain ⟨k, hk0, hkn, hd, hm⟩ := seriesBacktrack_some _ _ _ h
    refine ⟨?_, ?_, ?_⟩
    · intro hnil
      rw [hnil] at hm
      have hlen := congrArg List.length hd
      have hlen2 := congrArg List.length hm
      simp at hlen hlen2
      omega
    · intro c hc
      rw [hm] at hc
      have hpre : t.take k = (t.takeWhile reSlugChar).take k := by
        have hsplit := List.takeWhile_append_dropWhile reSlugChar t
        conv_lhs => rw [← hsplit]
        rw [List.take_append_of_le_length hkn]
      rw [hpre] at hc
      have hc2 : c ∈ t.takeWhile reSlugChar := List.mem_of_mem_take hc
      exact (List.mem_takeWhile_imp hc2)
    · rw [ht, hm, List.append_assoc, ← hd, List.take_append_drop]
  · simp at h

theorem seriesMatchHere_complete (m : Str) (hne : m ≠ [])
    (hm : ∀ c ∈ m, reSlugChar c = true) :
    seriesMatchHere ("/series/".toList ++ m ++ ['/']) = some m := by
  unfold seriesMatchHere
  have hp : hasPrefix ("/series/".toList ++ m ++ ['/']) "/series/".toList = true := by
    rw [hasPrefix_iff]
    exact ⟨m ++ ['/'], by simp⟩
  have hdrop : ("/series/".toList ++ m ++ ['/']).drop 8 = m ++ ['/'] := by
    rw [List.append_assoc]
    exact List.drop_left' rfl
  rw [if_pos hp, hdrop, takeWhile_append_stop reSlugChar m '/' [] hm reSlugChar_slash]
  obtain ⟨k, hk⟩ : ∃ k, m.length = k + 1 := by
    cases m with
    | nil => exact absurd rfl hne
    | cons x xs => exact ⟨xs.length, rfl⟩
  rw [hk]
  unfold seriesBacktrack
  have h1 : (m ++ ['/']).drop (k + 1) = ['/'] := by
    rw [← hk]
    exact List.drop_left' rfl
  have h2 : (m ++ ['/']).take (k + 1) = m := by
    rw [← hk]
    exact List.take_left' rfl
  rw [if_pos h1, h2]

theorem last_segment_unique (a b m n : Str) (hm : ∀ c ∈ m, c ≠ '/') (hn : ∀ c ∈ n, c ≠ '/')
    (h : a ++ "/series/".toList ++ m ++ ['/'] = b ++ "/series/".toList ++ n ++ ['/']) :
    m = n := by
  have h1 : a ++ "/series/".toList ++ m = b ++ "/series/".toList ++ n :=
    List.append_cancel_right h
  have h2 := congrArg List.reverse h1
  simp only [List.reverse_append] at h2
  have key : ∀ (x w : Str), (∀ c ∈ w, c ≠ '/') →
      (w.reverse ++ ("/series/".toList.reverse ++ x.reverse)).takeWhile (fun c => decide (c ≠ '/'))
        = w.reverse := by
    intro x w hw
    have : "/series/".toList.reverse ++ x.reverse = '/' :: ("seires/".toList ++ x.reverse) := by
      rfl
    rw [this]
    apply takeWhile_append_stop
    · intro c hc
      simpa using hw c (List.mem_reverse.1 hc)
    · simp
  have h3 := congrArg (List.takeWhile (fun c => decide (c ≠ '/'))) h2
  rw [key a m hm, key b n hn] at h3
  exact List.reverse_injective h3

theorem slug_no_slash (m : Str) (hm : ∀ c ∈ m, reSlugChar c = true) : ∀ c ∈ m, c ≠ '/' := by
  intro c hc heq
  have := hm c hc
  rw [heq, reSlugChar_slash] at this
  exact Bool.noConfusion this

theorem seriesFindStringSubmatch_cases (u : Str) :
    seriesFindStringSubmatch u = [] ∨
    ∃ p m, m ≠ [] ∧ (∀ c ∈ m, reSlugChar c = true) ∧ u = p ++ "/series/".toList ++ m ++ ['/']
      ∧ seriesFindStringSubmatch u = ["/series/".toList ++ m ++ ['/'], m] := by
  induction u with
  | nil => left; rfl
  | cons c cs ih =>
    unfold seriesFindStringSubmatch
    cases hmh : seriesMatchHere (c :: cs) with
    | some cap =>
      right
      obtain ⟨h1, h2, h3⟩ := seriesMatchHere_some _ _ hmh
      exact ⟨[], cap, h1, h2, by simpa using h3, rfl⟩
    | none =>
      rcases ih with h | ⟨p, m, h1, h2, h3, h4⟩
      · left; simpa using h
      · right
        refine ⟨c :: p, m, h1, h2, ?_, ?_⟩
        · rw [h3]; simp
        · simpa using h4

theorem seriesFindStringSubmatch_found (p m : Str) (hne : m ≠ [])
    (hm : ∀ c ∈ m, reSlugChar c = true) :
    seriesFindStringSubmatch (p ++ "/series/".toList ++ m ++ ['/']) ≠ [] := by
  induction p with
  | nil =>
    have h := seriesMatchHere_complete m hne hm
    have hform : [] ++ "/series/".toList ++ m ++ ['/'] = '/' :: ("series/".toList ++ m ++ ['/']) := rfl
    have hform2 : "/series/".toList ++ m ++ ['/'] = '/' :: ("series/".toList ++ m ++ ['/']) := rfl
    rw [hform]
    rw [hform2] at h
    unfold seriesFindStringSubmatch
    rw [h]
    simp
  | cons c cs ih =>
    have hform : (c :: cs) ++ "/series/".toList ++ m ++ ['/'] = c :: (cs ++ "/series/".toList ++ m ++ ['/']) := rfl
    rw [hform]
    unfold seriesFindStringSubmatch
    cases hmh : seriesMatchHere (c :: (cs ++ "/series/".toList ++ m ++ ['/'])) with
    | some cap => simp
    | none => simpa using ih


theorem extractIDFromURL_cases (u : Str) :
    (∀ p s : Str, s ≠ [] →
        (∀ c ∈ s, ('a' ≤ c ∧ c ≤ 'z') ∨ ('0' ≤ c ∧ c ≤ '9') ∨ c = '-') →
        u = p ++ "/series/".toList ++ s ++ ['/'] → extractIDFromURL u = s)
    ∧ ((¬ ∃ p s : Str, s ≠ [] ∧
          (∀ c ∈ s, ('a' ≤ c ∧ c ≤ 'z') ∨ ('0' ≤ c ∧ c ≤ '9') ∨ c = '-') ∧
          u = p ++ "/series/".toList ++ s ++ ['/']) → extractIDFromURL u = [])
    ∧ '/' ∉ extractIDFromURL u := by
  have hcases := seriesFindStringSubmatch_cases u
  refine ⟨?_, ?_, ?_⟩
  · intro p s hne hs hu
    have hs2 : ∀ c ∈ s, reSlugChar c = true := fun c hc => (reSlugChar_iff c).2 (hs c hc)
    rcases hcases with h | ⟨q, m, h1, h2, h3, h4⟩
    · exact absurd h (hu ▸ seriesFindStringSubmatch_found p s hne hs2)
    · have hms : m = s := by
        apply last_segment_unique q p m s (slug_no_slash m h2) (slug_no_slash s hs2)
        rw [← h3, ← hu]
      unfold extractIDFromURL
      simp [h4, hms]
  · intro hno
    rcases hcases with h | ⟨q, m, h1, h2, h3, _⟩
    · unfold extractIDFromURL
      simp [h]
    · exact absurd ⟨q, m, h1, fun c hc => (reSlugChar_iff c).1 (h2 c hc), h3⟩ hno
  · rcases hcases with h | ⟨q, m, _, h2, _, h4⟩
    · unfold extractIDFromURL
      simp [h]
    · unfold extractIDFromURL
      simp only [h4]
      intro hmem
      exact slug_no_slash m h2 '/' (by simpa using hmem) rfl


theorem rdropWhile_not_ends {α : Type} (p : α → Bool) (l t : List α) (x : α) (hx : p x = true) :
    l.rdropWhile p ≠ t ++ [x] := by
  intro h
  have hne : l.rdropWhile p ≠ [] := by
    rw [h]
    simp
  have hlast := List.rdropWhile_last_not p l hne
  have : (l.rdropWhile p).getLast hne = x := by
    simp [h]
  rw [this] at hlast
  exact hlast hx

theorem rdropWhile_append_dropped {α : Type} (p : α → Bool) (l : List α) (x : α)
    (hx : p x = true) (hl : ∀ t y, l = t ++ [y] → p y = false) :
    (l ++ [x]).rdropWhile p = l := by
  rw [List.rdropWhile_concat_pos p l x hx, List.rdropWhile_eq_self_iff]
  intro hne
  have hy := hl l.dropLast (l.getLast hne) (List.dropLast_append_getLast hne).symm
  simp [hy]

theorem trimSpace_not_ends_space (s t : Str) (y : Char) (h : trimSpace s = t ++ [y]) :
    unicodeIsSpace y = false := by
  by_contra hy
  have hy2 : unicodeIsSpace y = true := by simpa using hy
  exact rdropWhile_not_ends unicodeIsSpace _ t y hy2 h

theorem descriptionOf_cases (short long : Str) :
    (¬ ∃ t, descriptionOf short long = t ++ ['\n'])
    ∧ (trimSpace long = [] → descriptionOf short long = trimSpace short)
    ∧ descriptionOf short [] = trimSpace short := by
  have hempty : ∀ l : Str, trimSpace l = [] → descriptionOf short l = trimSpace short := by
    intro l hl
    unfold descriptionOf trimRight
    rw [hl, List.append_nil]
    apply rdropWhile_append_dropped
    · decide
    · intro t y hty
      have hy := trimSpace_not_ends_space short t y hty
      have : y ≠ '\n' := by
        intro heq
        rw [heq] at hy
        exact absurd hy (by decide)
      simpa using this
  refine ⟨?_, hempty long, hempty [] rfl⟩
  rintro ⟨t, ht⟩
  unfold descriptionOf trimRight at ht
  exact rdropWhile_not_ends _ _ t '\n' (by decide) ht

theorem searchRatingOf_cases (t : Str) :
    (∀ c ∈ searchRatingOf t,
        c ≠ '\t' ∧ c ≠ '\n' ∧ c ≠ Char.ofNat 0x0C ∧ c ≠ '\r' ∧ c ≠ ' ' ∧ c ≠ '(' ∧ c ≠ ')')
    ∧ searchRatingOf t = t.filter (fun c =>
        !(c = '\t' || c = '\n' || c = Char.ofNat 0x0C || c = '\r' || c = ' '
          || c = '(' || c = ')')) := by
  have hcls : ∀ c : Char, reSpaceOrParen c =
      (c = '\t' || c = '\n' || c = Char.ofNat 0x0C || c = '\r' || c = ' '
          || c = '(' || c = ')') := by
    intro c
    have h12 : (decide (c.toNat = 0x0C)) = decide (c = Char.ofNat 0x0C) := by
      rw [decide_eq_decide]
      constructor
      · intro h
        have : c = Char.ofNat c.toNat := (Char.ofNat_toNat c).symm
        rw [this, h]
      · intro h
        rw [h]
        rfl
    simp only [reSpaceOrParen, reSpace, h12]
  have heq : searchRatingOf t = t.filter (fun c =>
        !(c = '\t' || c = '\n' || c = Char.ofNat 0x0C || c = '\r' || c = ' '
          || c = '(' || c = ')')) := by
    unfold searchRatingOf reReplaceAllClass
    induction t with
    | nil => rfl
    | cons c cs ih =>
      rw [List.flatMap_cons, ih, List.filter_cons, hcls c]
      cases hc : (c = '\t' || c = '\n' || c = Char.ofNat 0x0C || c = '\r' || c = ' '
          || c = '(' || c = ')') <;> simp
  refine ⟨?_, heq⟩
  intro c hc
  rw [heq, List.mem_filter] at hc
  have h2 := hc.2
  simp only [Bool.not_eq_true', Bool.or_eq_false_iff, decide_eq_false_iff_not] at h2
  obtain ⟨⟨⟨⟨⟨⟨a1, a2⟩, a3⟩, a4⟩, a5⟩, a6⟩, a7⟩ := h2
  exact ⟨a1, a2, a3, a4, a5, a6, a7⟩

theorem imageOf_cases (src : Str) :
    (¬ ∃ t, imageOf src = t ++ "noimagemid.jpg".toList)
    ∧ ((∃ t, src = t ++ "noimagemid.jpg".toList) → imageOf src = [])
    ∧ ((¬ ∃ t, src = t ++ "noimagemid.jpg".toList) → imageOf src = src) := by
  unfold imageOf
  by_cases h : hasSuffix src "noimagemid.jpg".toList = true
  · rw [if_pos h]
    refine ⟨?_, fun _ => rfl, fun hn => absurd ((hasSuffix_iff _ _).1 h) hn⟩
    rintro ⟨t, ht⟩
    have := congrArg List.length ht
    simp at this
  · rw [if_neg h]
    have hn : ¬ ∃ t, src = t ++ "noimagemid.jpg".toList :=
      fun hex => h ((hasSuffix_iff _ _).2 hex)
    exact ⟨hn, fun hex => absurd hex hn, fun _ => rfl⟩

/-- C2. Both `ToJSON` methods hand `json.MarshalIndent` an indent of exactly
`k` spaces when the first indent argument `k` lies in 1..8, and of exactly two
spaces when `k ≤ 0`, `k > 8` or no argument is given. -/
theorem ToJSON_indent {β : Type} (marshalSearch : SearchResult → Str → Str → Except Str β)
    (marshalSeries : SeriesResult → Str → Str → Except Str β)
    (r : SearchResult) (s : SeriesResult) (k : Int) (more : List Int) :
    ((1 ≤ k ∧ k ≤ 8) →
        SearchResult.ToJSON marshalSearch r (k :: more)
            = marshalSearch r [] (List.replicate k.toNat ' ')
        ∧ SeriesResult.ToJSON marshalSeries s (k :: more)
            = marshalSeries s [] (List.replicate k.toNat ' '))
    ∧ ((k ≤ 0 ∨ 8 < k) →
        SearchResult.ToJSON marshalSearch r (k :: more) = marshalSearch r [] [' ', ' ']
        ∧ SeriesResult.ToJSON marshalSeries s (k :: more) = marshalSeries s [] [' ', ' '])
    ∧ SearchResult.ToJSON marshalSearch r [] = marshalSearch r [] [' ', ' ']
    ∧ SeriesResult.ToJSON marshalSeries s [] = marshalSeries s [] [' ', ' '] := by
  refine ⟨?_, ?_, rfl, rfl⟩
  · rintro ⟨h1, h8⟩
    have hc : k > 0 ∧ k ≤ 8 := ⟨by omega, h8⟩
    simp only [SearchResult.ToJSON, SeriesResult.ToJSON, if_pos hc, repeatSpace, and_self]
  · intro h
    have hc : ¬ (k > 0 ∧ k ≤ 8) := by omega
    simp only [SearchResult.ToJSON, SeriesResult.ToJSON, if_neg hc, repeatSpace]
    exact ⟨rfl, rfl⟩


theorem index_ok {α : Type} (xs : List α) (i : Nat) (h : i < xs.length) :
    ∃ x, index xs i = Except.ok x := by
  unfold index
  rw [List.get?_eq_get h]
  exact ⟨_, rfl⟩

theorem removeFirstIn_ok (test : Node → Bool) (cs : List Node)
    (h : ∀ c ∈ cs, c.descendants.any test = false) :
    ∃ cs1, removeFirstIn test cs = Except.ok cs1 := by
  induction cs with
  | nil => exact ⟨[], rfl⟩
  | cons c cs ih =>
    unfold removeFirstIn
    by_cases hc : test c = true
    · rw [if_pos hc]
      exact ⟨cs, rfl⟩
    · rw [if_neg hc]
      have hd := h c (List.mem_cons_self _ _)
      rw [hd]
      obtain ⟨cs1, hcs1⟩ := ih (fun x hx => h x (List.mem_cons_of_mem _ hx))
      rw [hcs1]
      exact ⟨c :: cs1, rfl⟩

theorem removeFirstMatch_ok (test : Node → Bool) (n : Node)
    (h : ∀ c ∈ n.children, c.descendants.any test = false) :
    ∃ n1, removeFirstMatch test n = Except.ok n1 := by
  cases n with
  | mk t d a cs =>
    obtain ⟨cs1, hcs1⟩ := removeFirstIn_ok test cs h
    simp only [removeFirstMatch, hcs1]
    exact ⟨_, rfl⟩

theorem index_error {α : Type} (xs : List α) (i : Nat) (h : xs.length ≤ i) :
    index xs i = Except.error (Failure.panic (Panic.indexOutOfRange i xs.length)) := by
  unfold index
  rw [List.get?_eq_none.2 h]

theorem searchResultOf_ok (card : Node) (h : wellFormedCard card = true) :
    ∃ r, searchResultOf card = Except.ok r := by
  unfold wellFormedCard cardLayout at h
  split at h
  · rename_i body imageBody hbody himg
    simp only [Bool.and_eq_true] at h
    obtain ⟨⟨⟨⟨⟨⟨htitle, hrat⟩, htext⟩, htrim⟩, -⟩, -⟩, -⟩ := h
    obtain ⟨titleNode, htitle⟩ := Option.isSome_iff_exists.1 htitle
    obtain ⟨textNode, htext⟩ := Option.isSome_iff_exists.1 htext
    split at hrat
    · rename_i ratings hratings
      split at htrim
      · rename_i trimmed htrimmed
        have hstats := of_decide_eq_true htrim
        obtain ⟨ratings1, hr1⟩ := removeFirstMatch_ok (isElement "span".toList) ratings
          (fun c hc => by
            have := List.all_eq_true.1 hrat c hc
            simpa using this)
        obtain ⟨s0, hs0⟩ := index_ok _ 0 (Nat.lt_of_lt_of_le (by decide : 0 < 5) hstats)
        obtain ⟨s1, hs1⟩ := index_ok _ 1 (Nat.lt_of_lt_of_le (by decide : 1 < 5) hstats)
        obtain ⟨s2, hs2⟩ := index_ok _ 2 (Nat.lt_of_lt_of_le (by decide : 2 < 5) hstats)
        obtain ⟨s3, hs3⟩ := index_ok _ 3 (Nat.lt_of_lt_of_le (by decide : 3 < 5) hstats)
        obtain ⟨s4, hs4⟩ := index_ok _ 4 (Nat.lt_of_lt_of_le (by decide : 4 < 5) hstats)
        unfold searchResultOf
        simp only [findOne, find, innerText, removeRatingSpan, bodyAfterTrim, hbody, himg,
          htitle, htext, hratings, hr1, htrimmed, Option.map_some', hs0, hs1, hs2, hs3, hs4,
          bind, Except.bind, pure, Except.pure]
        exact ⟨_, rfl⟩
      · cases htrim
    · cases hrat
  · cases h

/-- A card with all required nodes but only `k < 5` statistics spans makes the
iteration panic on `stats[k]`, the first index that is missing. -/
theorem searchResultOf_panics (k : Nat) (hk : k < 5) (card : Node)
    (h : cardWithStats k card = true) :
    searchResultOf card = Except.error (Failure.panic (Panic.indexOutOfRange k k)) := by
  unfold cardWithStats cardLayout at h
  split at h
  · rename_i body imageBody hbody himg
    simp only [Bool.and_eq_true] at h
    obtain ⟨⟨⟨⟨⟨⟨htitle, hrat⟩, htext⟩, htrim⟩, -⟩, -⟩, -⟩ := h
    obtain ⟨titleNode, htitle⟩ := Option.isSome_iff_exists.1 htitle
    obtain ⟨textNode, htext⟩ := Option.isSome_iff_exists.1 htext
    split at hrat
    · rename_i ratings hratings
      split at htrim
      · rename_i trimmed htrimmed
        have hstats := of_decide_eq_true htrim
        obtain ⟨ratings1, hr1⟩ := removeFirstMatch_ok (isElement "span".toList) ratings
          (fun c hc => by
            have := List.all_eq_true.1 hrat c hc
            simpa using this)
        have hfail := index_error _ k (le_of_eq hstats)
        rw [hstats] at hfail
        have hbelow : ∀ i, i < k → ∃ x, index (searchStats
            ((Node.replaceFirst (spanClass "testhide".toList) trimmed body).getD body)) i
              = Except.ok x :=
          fun i hi => index_ok _ i (hstats ▸ hi)
        unfold searchResultOf
        simp only [findOne, find, innerText, removeRatingSpan, bodyAfterTrim, hbody, himg,
          htitle, htext, hratings, hr1, htrimmed, Option.map_some',
          bind, Except.bind, pure, Except.pure]
        interval_cases k
        · simp only [hfail]
        · obtain ⟨s0, hs0⟩ := hbelow 0 (by decide)
          simp only [hs0, hfail]
        · obtain ⟨s0, hs0⟩ := hbelow 0 (by decide)
          obtain ⟨s1, hs1⟩ := hbelow 1 (by decide)
          simp only [hs0, hs1, hfail]
        · obtain ⟨s0, hs0⟩ := hbelow 0 (by decide)
          obtain ⟨s1, hs1⟩ := hbelow 1 (by decide)
          obtain ⟨s2, hs2⟩ := hbelow 2 (by decide)
          simp only [hs0, hs1, hs2, hfail]
        · obtain ⟨s0, hs0⟩ := hbelow 0 (by decide)
          obtain ⟨s1, hs1⟩ := hbelow 1 (by decide)
          obtain ⟨s2, hs2⟩ := hbelow 2 (by decide)
          obtain ⟨s3, hs3⟩ := hbelow 3 (by decide)
          simp only [hs0, hs1, hs2, hs3, hfail]
      · cases htrim
    · cases hrat
  · cases h


theorem bind_eq_ok {α β : Type} (x : Result α) (f : α → Result β) (b : β)
    (h : (x >>= f) = Except.ok b) : ∃ a, x = Except.ok a ∧ f a = Except.ok b := by
  cases x with
  | error e => cases h
  | ok a => exact ⟨a, rfl, h⟩

theorem seriesResultOf_rating (caseTable : Char → Char) (doc : Node) (r : SeriesResult)
    (h : seriesResultOf caseTable doc = Except.ok r) : ratingOf doc = Except.ok r.Rating := by
  unfold seriesResultOf at h
  iterate 15 obtain ⟨_, -, h⟩ := bind_eq_ok _ _ _ h
  obtain ⟨rating, hrating, h⟩ := bind_eq_ok _ _ _ h
  repeat obtain ⟨_, -, h⟩ := bind_eq_ok _ _ _ h
  cases h
  exact hrating

theorem ratingLoop_names (rows : List Node) (tempR : Int) (acc res : List Rating)
    (h : ratingLoop rows tempR acc = Except.ok res) :
    res.map (fun x => x.name)
      = acc.map (fun x => x.name)
        ++ (List.range rows.length).map (fun (i : Nat) => sprintInt (tempR - (i : Int))) := by
  induction rows generalizing tempR acc with
  | nil =>
    unfold ratingLoop at h
    cases h
    simp
  | cons tr rest ih =>
    unfold ratingLoop at h
    split at h
    · rename_i td htd
      have := ih _ _ h
      rw [this, List.length_cons, List.range_succ_eq_map]
      simp only [List.map_append, List.map_cons, List.map_nil, List.append_assoc,
        List.singleton_append, List.map_map]
      congr 2
      · simp
      · apply List.map_congr_left
        intro i _
        simp only [Function.comp]
        congr 1
        push_cast
        ring
    · cases h


theorem searchResultOf_fields (card : Node) (r : SearchResult)
    (h : searchResultOf card = Except.ok r) :
    r.ID = extractIDFromURL r.URL
    ∧ (∃ src, r.Image = imageOf src)
    ∧ (∃ t, r.SearchRating = searchRatingOf t)
    ∧ (∃ short long, r.Description = descriptionOf short long) := by
  unfold searchResultOf at h
  repeat obtain ⟨_, -, h⟩ := bind_eq_ok _ _ _ h
  cases h
  exact ⟨rfl, ⟨_, rfl⟩, ⟨_, rfl⟩, ⟨_, _, rfl⟩⟩

theorem parseSearchLoop_mem (cards : List Node) (acc rs : List SearchResult)
    (h : parseSearchLoop cards acc = Except.ok rs) :
    ∀ r ∈ rs, r ∈ acc ∨ ∃ c ∈ cards, searchResultOf c = Except.ok r := by
  induction cards generalizing acc with
  | nil =>
    unfold parseSearchLoop at h
    cases h
    intro r hr
    exact Or.inl hr
  | cons c cs ih =>
    unfold parseSearchLoop at h
    split at h
    · rename_i rc hrc
      intro r hr
      rcases ih _ h r hr with hacc | ⟨c1, hc1, hres⟩
      · rcases List.mem_append.1 hacc with h1 | h1
        · exact Or.inl h1
        · have : r = rc := by simpa using h1
          exact Or.inr ⟨c, List.mem_cons_self _ _, this ▸ hrc⟩
      · exact Or.inr ⟨c1, List.mem_cons_of_mem _ hc1, hres⟩
    · cases h

theorem parseSearch_mem (doc : Node) (rs : List SearchResult)
    (h : parseSearch (Except.ok doc) = Except.ok rs) :
    ∀ r ∈ rs, ∃ c ∈ searchContainers doc, searchResultOf c = Except.ok r := by
  intro r hr
  rcases parseSearchLoop_mem _ _ _ h r hr with h1 | h1
  · cases h1
  · exact h1

theorem parseSearchLoop_ok (cards : List Node) (acc : List SearchResult)
    (h : ∀ c ∈ cards, ∃ r, searchResultOf c = Except.ok r) :
    ∃ rs, parseSearchLoop cards acc = Except.ok (acc ++ rs)
      ∧ cards.map searchResultOf = rs.map Except.ok := by
  induction cards generalizing acc with
  | nil => exact ⟨[], by simp [parseSearchLoop], rfl⟩
  | cons c cs ih =>
    obtain ⟨r, hr⟩ := h c (List.mem_cons_self _ _)
    obtain ⟨rs, hrs, hmap⟩ := ih (acc ++ [r]) (fun x hx => h x (List.mem_cons_of_mem _ hx))
    refine ⟨r :: rs, ?_, ?_⟩
    · unfold parseSearchLoop
      simp only [hr]
      rw [hrs, List.append_assoc]
      rfl
    · simp [hr, hmap]


/-- The loop panics on the first card that lacks a statistics span when the
cards before it are well formed. -/
theorem parseSearchLoop_panics (k : Nat) (hk : k < 5) (before : List Node) (card : Node)
    (after : List Node) (acc : List SearchResult)
    (hbefore : ∀ c ∈ before, wellFormedCard c = true) (hcard : cardWithStats k card = true) :
    parseSearchLoop (before ++ card :: after) acc
      = Except.error (Failure.panic (Panic.indexOutOfRange k k)) := by
  induction before generalizing acc with
  | nil =>
    have hp := searchResultOf_panics k hk card hcard
    simp only [List.nil_append, parseSearchLoop, hp]
  | cons c cs ih =>
    obtain ⟨r, hr⟩ := searchResultOf_ok c (hbefore c (List.mem_cons_self _ _))
    have hrest := ih (acc ++ [r]) (fun x hx => hbefore x (List.mem_cons_of_mem _ hx))
    rw [List.cons_append]
    unfold parseSearchLoop
    simp only [hr]
    exact hrest

/-- The cleaning of the three label fields on a text that is not exhausted by
the leading space: the first byte of the remainder is cut. -/
theorem stripLabel_cons (t : Str) (c : Char) (rest : Str)
    (h : trimPrefix t " ".toList = c :: rest) :
    stripLabel t = Except.ok (List.replicate (c.utf8Size - 1) (Char.ofNat 0xFFFD) ++ rest) := by
  unfold stripLabel
  rw [h]
  rfl

/-! ## The claims -/

/-- C1. `extractIDFromURL u` is the slug `s` whenever `u` ends with
`/series/` ++ `s` ++ `/` for a non-empty `s` over `a-z`, `0-9`, `-`; it is the
empty string for every other `u`, and it never contains a slash.  The id of
every record returned by `parseSearch` is `extractIDFromURL` of its url. -/
theorem extractIDFromURL_spec :
    (∀ u : Str,
      (∀ p s : Str, s ≠ [] →
          (∀ c ∈ s, ('a' ≤ c ∧ c ≤ 'z') ∨ ('0' ≤ c ∧ c ≤ '9') ∨ c = '-') →
          u = p ++ "/series/".toList ++ s ++ ['/'] → extractIDFromURL u = s)
      ∧ ((¬ ∃ p s : Str, s ≠ [] ∧
            (∀ c ∈ s, ('a' ≤ c ∧ c ≤ 'z') ∨ ('0' ≤ c ∧ c ≤ '9') ∨ c = '-') ∧
            u = p ++ "/series/".toList ++ s ++ ['/']) → extractIDFromURL u = [])
      ∧ '/' ∉ extractIDFromURL u)
    ∧ (∀ (doc : Node) (rs : List SearchResult), parseSearch (Except.ok doc) = Except.ok rs →
        ∀ r ∈ rs, r.ID = extractIDFromURL r.URL) := by
  refine ⟨extractIDFromURL_cases, ?_⟩
  intro doc rs h r hr
  obtain ⟨c, -, hc⟩ := parseSearch_mem doc rs h r hr
  exact (searchResultOf_fields c r hc).1

/-- The slug of a series url, the empty id of the empty url, and the id of
the first record of the sample page. -/
theorem extractIDFromURL_spec_witness :
    extractIDFromURL "https://www.novelupdates.com/series/mushoku-tensei-ln/".toList
      = "mushoku-tensei-ln".toList
    ∧ extractIDFromURL [] = []
    ∧ parseSearch (Except.ok searchPage) = Except.ok searchPageRecords
    ∧ firstSearchPageRecord.ID = extractIDFromURL firstSearchPageRecord.URL :=
  ⟨(extractIDFromURL_spec.1 _).1 "https://www.novelupdates.com".toList
      "mushoku-tensei-ln".toList (by decide) (by decide) (by decide),
   (extractIDFromURL_spec.1 []).2.1 (by simp),
   rfl,
   extractIDFromURL_spec.2 searchPage searchPageRecords rfl firstSearchPageRecord
     (by decide)⟩

/-- C6, as stated, fails: the class `[\s()]` is narrower than white space.
For the inner text made of a vertical tab, the digit 4 and a no-break space the
search rating is that text unchanged, and both U+000B and U+00A0 are white
space for `unicode.IsSpace`, the notion `strings.TrimSpace` uses in the same
function; so a search rating can contain white space characters. -/
theorem searchRatingOf_keeps_other_space :
    searchRatingOf [Char.ofNat 0x0B, '4', Char.ofNat 0xA0]
      = [Char.ofNat 0x0B, '4', Char.ofNat 0xA0]
    ∧ unicodeIsSpace (Char.ofNat 0x0B) = true ∧ unicodeIsSpace (Char.ofNat 0xA0) = true
    ∧ ¬ (∀ t : Str, ∀ c ∈ searchRatingOf t, unicodeIsSpace c = false) := by
  refine ⟨by decide, by decide, by decide, ?_⟩
  intro h
  have h1 := h [Char.ofNat 0x0B, '4', Char.ofNat 0xA0] (Char.ofNat 0x0B) (by decide)
  exact absurd h1 (by decide)

/-- C6, as amended.  The search rating holds none of the seven characters
tab, newline, form feed, carriage return, space, `(` and `)` (the class
`[\s()]` of Go regular expressions), and it is the inner text of the
`search_ratings` node with exactly these characters deleted, every other
character, other white space included, kept in order.  This holds for the
rating of every record `parseSearch` returns. -/
theorem searchRatingOf_spec :
    (∀ t : Str,
      (∀ c ∈ searchRatingOf t,
          c ≠ '\t' ∧ c ≠ '\n' ∧ c ≠ Char.ofNat 0x0C ∧ c ≠ '\r' ∧ c ≠ ' ' ∧ c ≠ '(' ∧ c ≠ ')')
      ∧ searchRatingOf t = t.filter (fun c =>
          !(c = '\t' || c = '\n' || c = Char.ofNat 0x0C || c = '\r' || c = ' '
            || c = '(' || c = ')')))
    ∧ (∀ (doc : Node) (rs : List SearchResult), parseSearch (Except.ok doc) = Except.ok rs →
        ∀ r ∈ rs, ∀ c ∈ r.SearchRating,
          c ≠ '\t' ∧ c ≠ '\n' ∧ c ≠ Char.ofNat 0x0C ∧ c ≠ '\r' ∧ c ≠ ' ' ∧ c ≠ '(' ∧ c ≠ ')') := by
  refine ⟨searchRatingOf_cases, ?_⟩
  intro doc rs h r hr
  obtain ⟨card, -, hc⟩ := parseSearch_mem doc rs h r hr
  obtain ⟨t, ht⟩ := (searchResultOf_fields card r hc).2.2.1
  rw [ht]
  exact (searchRatingOf_cases t).1

/-- The rating of the first record of the sample page. -/
theorem searchRatingOf_spec_witness :
    parseSearch (Except.ok searchPage) = Except.ok searchPageRecords
    ∧ firstSearchPageRecord.SearchRating = "4.5".toList
    ∧ (∀ c ∈ firstSearchPageRecord.SearchRating,
        c ≠ '\t' ∧ c ≠ '\n' ∧ c ≠ Char.ofNat 0x0C ∧ c ≠ '\r' ∧ c ≠ ' ' ∧ c ≠ '(' ∧ c ≠ ')') :=
  ⟨rfl, by decide,
   searchRatingOf_spec.2 searchPage searchPageRecords rfl firstSearchPageRecord (by decide)⟩

/-- C7. The description built by `parseSearch` from the short and the long
description never ends with a newline, and it is the trimmed short description
when the long description is empty (also after trimming).  No record returned
by `parseSearch` has a description ending with a newline. -/
theorem descriptionOf_spec :
    (∀ short long : Str,
      (¬ ∃ t, descriptionOf short long = t ++ ['\n'])
      ∧ (trimSpace long = [] → descriptionOf short long = trimSpace short)
      ∧ descriptionOf short [] = trimSpace short)
    ∧ (∀ (doc : Node) (rs : List SearchResult), parseSearch (Except.ok doc) = Except.ok rs →
        ∀ r ∈ rs, ¬ ∃ t, r.Description = t ++ ['\n']) := by
  refine ⟨descriptionOf_cases, ?_⟩
  intro doc rs h r hr
  obtain ⟨card, -, hc⟩ := parseSearch_mem doc rs h r hr
  obtain ⟨a, b, hab⟩ := (searchResultOf_fields card r hc).2.2.2
  rw [hab]
  exact (descriptionOf_cases a b).1

/-- The description for a long description made of white space only, and the
description of the first record of the sample page. -/
theorem descriptionOf_spec_witness :
    descriptionOf " A jobless man. ".toList " \n".toList = "A jobless man.".toList
    ∧ parseSearch (Except.ok searchPage) = Except.ok searchPageRecords
    ∧ (¬ ∃ t, firstSearchPageRecord.Description = t ++ ['\n']) :=
  ⟨(descriptionOf_spec.1 " A jobless man. ".toList " \n".toList).2.1 (by decide),
   rfl,
   descriptionOf_spec.2 searchPage searchPageRecords rfl firstSearchPageRecord (by decide)⟩

/-- C8. The image field never ends with `noimagemid.jpg`: it is empty when the
`src` of the cover ends with it and is the `src` unchanged otherwise.  No
record returned by `parseSearch` has an image ending with `noimagemid.jpg`. -/
theorem imageOf_spec :
    (∀ src : Str,
      (¬ ∃ t, imageOf src = t ++ "noimagemid.jpg".toList)
      ∧ ((∃ t, src = t ++ "noimagemid.jpg".toList) → imageOf src = [])
      ∧ ((¬ ∃ t, src = t ++ "noimagemid.jpg".toList) → imageOf src = src))
    ∧ (∀ (doc : Node) (rs : List SearchResult), parseSearch (Except.ok doc) = Except.ok rs →
        ∀ r ∈ rs, ¬ ∃ t, r.Image = t ++ "noimagemid.jpg".toList) := by
  refine ⟨imageOf_cases, ?_⟩
  intro doc rs h r hr
  obtain ⟨card, -, hc⟩ := parseSearch_mem doc rs h r hr
  obtain ⟨src, hsrc⟩ := (searchResultOf_fields card r hc).2.1
  rw [hsrc]
  exact (imageOf_cases src).1

/-- The image of a card showing the placeholder, the image of a card showing
a cover, and the image of the first record of the sample page. -/
theorem imageOf_spec_witness :
    imageOf "https://cdn.novelupdates.com/imgmid/noimagemid.jpg".toList = []
    ∧ imageOf "https://cdn.novelupdates.com/images/m.jpg".toList
        = "https://cdn.novelupdates.com/images/m.jpg".toList
    ∧ parseSearch (Except.ok searchPage) = Except.ok searchPageRecords
    ∧ (¬ ∃ t, firstSearchPageRecord.Image = t ++ "noimagemid.jpg".toList) :=
  ⟨(imageOf_spec.1 _).2.1 ⟨"https://cdn.novelupdates.com/imgmid/".toList, by decide⟩,
   (imageOf_spec.1 _).2.2 (fun h => by
      have h2 := (hasSuffix_iff _ _).2 h
      exact absurd h2 (by decide)),
   rfl,
   imageOf_spec.2 searchPage searchPageRecords rfl firstSearchPageRecord (by decide)⟩

/-- The indent for the arguments 4 and 9. -/
theorem ToJSON_indent_witness :
    SearchResult.ToJSON (fun _ _ ind => Except.ok ind) emptySearchResult [4]
      = Except.ok "    ".toList
    ∧ SeriesResult.ToJSON (fun _ _ ind => Except.ok ind) emptySeriesResult [9]
      = Except.ok "  ".toList :=
  ⟨((ToJSON_indent (fun _ _ ind => Except.ok ind) (fun _ _ ind => Except.ok ind)
      emptySearchResult emptySeriesResult 4 []).1 (by decide)).1,
   ((ToJSON_indent (fun _ _ ind => Except.ok ind) (fun _ _ ind => Except.ok ind)
      emptySearchResult emptySeriesResult 9 []).2.1 (by decide)).2⟩

/-- C9. The cleaning of `status`, `licensed` and `completely_translated` does
not yield a value for the empty text and for the text that is one space: the
slice expression panics, and `parseSeries` panics with it on a page whose
`div#showlicensed` is empty. -/
theorem stripLabel_panics_on_short_text :
    stripLabel [] = Except.error (Failure.panic (Panic.sliceBoundsOutOfRange 1 0))
    ∧ stripLabel [' '] = Except.error (Failure.panic (Panic.sliceBoundsOutOfRange 1 0))
    ∧ parseSeries (fun c => c) (Except.ok seriesPageEmptyLicensed)
        = Except.error (Failure.panic (Panic.sliceBoundsOutOfRange 1 0)) := by
  refine ⟨rfl, rfl, ?_⟩
  rfl

/-- C5, as amended.  Whenever `parseSeries` returns a record, its rating
sequence is named `Overall` followed by 5, 4, ... counting down by one for
every row of `table#myrates > tbody > tr`; it has the six names
`Overall, 5, 4, 3, 2, 1` when the table has exactly five rows. -/
theorem parseSeries_rating_names (caseTable : Char → Char) (doc : Node) (r : SeriesResult)
    (h : parseSeries caseTable (Except.ok doc) = Except.ok r) :
    r.Rating.map (fun x => x.name)
        = "Overall".toList
          :: (List.range (ratingRows doc).length).map (fun (i : Nat) => sprintInt (5 - (i : Int)))
    ∧ r.Rating.length = 1 + (ratingRows doc).length
    ∧ ((ratingRows doc).length = 5 →
        r.Rating.map (fun x => x.name)
          = ["Overall".toList, "5".toList, "4".toList, "3".toList, "2".toList, "1".toList]) := by
  have hr := seriesResultOf_rating caseTable doc r h
  unfold ratingOf at hr
  obtain ⟨n1, -, hr⟩ := bind_eq_ok _ _ _ hr
  obtain ⟨n2, -, hr⟩ := bind_eq_ok _ _ _ hr
  have hnames := ratingLoop_names _ _ _ _ hr
  simp only [List.map_cons, List.map_nil, List.singleton_append] at hnames
  refine ⟨hnames, ?_, ?_⟩
  · have := congrArg List.length hnames
    simp only [List.length_map, List.length_cons, List.length_range] at this
    omega
  · intro h5
    rw [hnames, h5]
    decide

/-- C4. A document without result card yields the empty list and no error; a
document whose cards are all well formed yields exactly one record per card,
the i-th record being the one extracted from the i-th card in document order,
and no error. -/
theorem parseSearch_records (doc : Node) :
    (searchContainers doc = [] → parseSearch (Except.ok doc) = Except.ok [])
    ∧ ((∀ c ∈ searchContainers doc, wellFormedCard c = true) →
        ∃ rs, parseSearch (Except.ok doc) = Except.ok rs
          ∧ rs.length = (searchContainers doc).length
          ∧ (searchContainers doc).map searchResultOf = rs.map Except.ok) := by
  constructor
  · intro h
    unfold parseSearch
    simp only [h]
    rfl
  · intro h
    obtain ⟨rs, hrs, hmap⟩ := parseSearchLoop_ok (searchContainers doc) []
      (fun c hc => searchResultOf_ok c (h c hc))
    refine ⟨rs, ?_, ?_, hmap⟩
    · unfold parseSearch
      simpa using hrs
    · have := congrArg List.length hmap
      simpa using this.symm

theorem parseSearch_records_witness :
    parseSearch (Except.ok (htmlDocument [])) = Except.ok []
    ∧ (parseSearch (Except.ok searchPage)).map List.length = Except.ok 2 := by
  refine ⟨(parseSearch_records (htmlDocument [])).1 rfl, ?_⟩
  obtain ⟨rs, h1, h2, -⟩ := (parseSearch_records searchPage).2 (by decide)
  rw [h1]
  have h3 : (searchContainers searchPage).length = 2 := by decide
  rw [h3] at h2
  simp [Except.map, h2]

/-- C3. On the page whose card holds four statistics spans `parseSearch` does
not return a parse error: it panics on the index expression `stats[4]`. -/
theorem parseSearch_panics_on_missing_stat :
    (searchContainers searchPageBroken).map (fun c => (searchStats c).length) = [4]
    ∧ parseSearch (Except.ok searchPageBroken)
        = Except.error (Failure.panic (Panic.indexOutOfRange 4 4)) := by
  constructor
  · decide
  · rfl

/-- C5, as stated, fails: on a page whose ratings table is present and has two
rows `parseSeries` returns a rating sequence of three entries. -/
theorem rating_entries_follow_rows :
    (ratingsTable seriesPageTwoRows).length = 1
    ∧ (parseSeries (fun c => c) (Except.ok seriesPageTwoRows)).map
        (fun r => r.Rating.map (fun x => x.name))
      = Except.ok ["Overall".toList, "5".toList, "4".toList] := by
  constructor
  · decide
  · rfl

theorem parseSeries_rating_names_witness :
    (parseSeries (fun c => c) (Except.ok seriesPageFiveRows)).map
        (fun r => r.Rating.map (fun x => x.name))
      = Except.ok ["Overall".toList, "5".toList, "4".toList, "3".toList, "2".toList,
          "1".toList] := by
  have hex : ∃ r, parseSeries (fun c => c) (Except.ok seriesPageFiveRows) = Except.ok r :=
    ⟨_, rfl⟩
  obtain ⟨r, hr⟩ := hex
  rw [hr]
  have := (parseSeries_rating_names (fun c => c) seriesPageFiveRows r hr).2.2 (by decide)
  simp [Except.map, this]

end NovelUpdates
